import Mathlib

/-!
Verification development for the bl-patcher repository (src/main.rs).

The program is shallowly embedded as follows.

File contents are lists of bytes (Nat, always < 256 in practice; the code
only copies and compares bytes, never does arithmetic on them).  The
operation of seeking a writable handle to an absolute offset and calling
write_all is the pure function writeAt: it overwrites in place; when the
offset lies past the end of the file the gap is filled with zero bytes and
the file grows, which is the POSIX behaviour of writing after seeking past
EOF.  Version::modify_file is the fold of these writes over the change
list, in order.

The SHA-1 digest is computed by the external sha1 crate, which is not part
of this repository; it enters the model as an explicit function parameter
of type List Byte to String (the code stores the known digests as lowercase
hex string literals and compares parsed digests, which is equivalent to
comparing the hex strings).  Claims about buffers "whose hash equals" a
registered digest are settled under explicit ideal-hash hypotheses
(IdealHash below): the digest function has the registered unpatched hash
exactly at a canonical pristine file that carries the registered original
bytes at the change offsets, and the registered patched hash exactly at
the result of applying the changes to it.  These hypotheses are the
Version invariant stated in the specification, and they are satisfiable:
concrete instances are constructed for the witness theorems.

Fallible I/O on the open target file is modelled by boolean failure flags
on the file (seekFails, readFails, writeFails); a run of the program is a
value of IOResult, which distinguishes a normally returned value, a
propagated error value, and a process abort via panic (the code calls
expect on the result of fill_buf, which panics instead of returning).

The Steam install-path resolver is modelled over an explicit environment
(HOME variable, path canonicalization, the external steamy_vdf parser and
the file system), with the installdir regular expression of
get_install_dir_from_manifest implemented faithfully as a backtracking-free
scanner over the manifest text (each quantified class in the pattern is
followed by a character excluded from it, so maximal munch is exact).
-/

namespace BLPatcher

/-- A byte of file content. -/
abbrev Byte := Nat

/-- One atomic modification (struct Change): absolute byte offset, the
expected original bytes at that offset, and the bytes to write to apply. -/
structure Change where
  offset   : Nat
  original : List Byte
  patch    : List Byte
deriving DecidableEq

/-- A known release of the target binary (struct Version): digest of the
pristine file, digest after all changes are applied, ordered change list.
Digests are the lowercase hex strings stored in the source. -/
structure Version where
  unpatched_hash : String
  patched_hash   : String
  changes        : List Change
deriving DecidableEq

/-- The two patch directions (enum Action). -/
inductive Action where
  | apply
  | undo
deriving DecidableEq

/-- The bytes written for one Change under an Action: patch bytes for
Apply, original bytes for Undo (the match inside Version::modify_file). -/
def actionBytes : Action → Change → List Byte
  | .apply, c => c.patch
  | .undo,  c => c.original

/-- Seek to an absolute offset and write a byte string there
(file.seek(SeekFrom::Start(offset)) followed by file.write_all(bytes)):
bytes inside the file are overwritten in place; a gap between the old end
of file and the offset is filled with zeros. -/
def writeAt (file : List Byte) (offset : Nat) (bytes : List Byte) : List Byte :=
  file.take offset ++ List.replicate (offset - file.length) 0 ++ bytes
    ++ file.drop (offset + bytes.length)

/-- Version::modify_file: for each change in order, seek to its offset and
write the action-selected bytes. -/
def modify_file (a : Action) (changes : List Change) (file : List Byte) : List Byte :=
  changes.foldl (fun f c => writeAt f c.offset (actionBytes a c)) file

/-- The single registered version (the static VERSIONS table):
win32, with cl colon ffs, as of 2019-06-24. -/
def V0 : Version :=
  { unpatched_hash := "bc1d695c6fdb3dea491b367f73bbb045c316b32e"
    patched_hash   := "fc8afce04782532b0fe7a70a80ee1070da858e32"
    changes        :=
      [ -- remove the say string prefixed to console entries
        { offset := 0x012f8b90, original := [0x73], patch := [0x00] },
        -- enable dev commands
        { offset := 0x01699cb2, original := [0xb8], patch := [0xb7] },
        -- enable set
        { offset := 0x0042d740, original := [0xc0], patch := [0xff] } ] }

/-- The compiled-in registry (static VERSIONS: [Version; 1]). -/
def VERSIONS : List Version := [V0]

/-- The error enum PatcherError of the source. -/
inductive PatcherError where
  | UnknownVersion (hash : String)
  | BadVDF (path : String)
  | CantFindManifest (appid : Nat)
deriving DecidableEq

/-- A propagated error value (Box dyn Error at the top level): either a
std io Error, a std env VarError, an error of the external steamy_vdf
loader, or one of the programs own PatcherError values. -/
inductive ProgError where
  | ioError
  | envError
  | vdfError
  | patcher (e : PatcherError)
deriving DecidableEq

/-- Outcome of a fallible step: a returned value, a propagated error
value, or a process abort via panic with the given message. -/
inductive IOResult (α : Type) where
  | ok (a : α)
  | err (e : ProgError)
  | panicked (msg : String)
deriving DecidableEq

deriving instance DecidableEq for Except

/-- The open read-write target file: its content together with flags
saying whether the underlying seek, read and write calls fail. -/
structure IOFile where
  content    : List Byte
  seekFails  : Bool
  readFails  : Bool
  writeFails : Bool
deriving DecidableEq

/-- struct ExeState: the matched version and whether the current content
digest equals its patched hash. -/
structure ExeState where
  version : Version
  patched : Bool
deriving DecidableEq

/-- The linear scan of get_exe_state over the registry: first version whose
unpatched hash equals the digest gives patched := false, first whose
patched hash equals it gives patched := true, otherwise the UnknownVersion
error carrying the digest. -/
def classify (file_hash : String) : List Version → Except ProgError ExeState
  | [] => .error (.patcher (.UnknownVersion file_hash))
  | v :: rest =>
    if file_hash = v.unpatched_hash then .ok { version := v, patched := false }
    else if file_hash = v.patched_hash then .ok { version := v, patched := true }
    else classify file_hash rest

/-- fn get_exe_state: seek to the start (a seek failure propagates as an
io error value); hash the entire content from the start (the code calls
expect on each fill_buf result, so a read failure aborts via panic with
message "I/O Error" instead of propagating); then scan the registry. -/
def get_exe_state (sha1 : List Byte → String) (f : IOFile) : IOResult ExeState :=
  if f.seekFails then .err .ioError
  else if f.readFails then .panicked "I/O Error"
  else
    match classify (sha1 f.content) VERSIONS with
    | .ok st => .ok st
    | .error e => .err e

/-- Version::modify_file on the open file: with an empty change list
nothing is done; otherwise the per-change seeks and writes run, and a
seek or write failure propagates as an io error value (the model lets the
failure happen at the first change, before any content is modified). -/
def modify_file_op (a : Action) (changes : List Change) (f : IOFile) : IOResult IOFile :=
  match changes with
  | [] => .ok f
  | _ :: _ =>
    if f.seekFails || f.writeFails then .err .ioError
    else .ok { f with content := modify_file a changes f.content }

/-- The patch-and-verify portion of fn main, from the first get_exe_state
call onwards: classify; on Unpatched apply, on Patched undo; then classify
again to verify.  The Bool records whether modify_file was invoked. -/
def run_patch (sha1 : List Byte → String) (f : IOFile) :
    IOResult Unit × IOFile × Bool :=
  match get_exe_state sha1 f with
  | .err e => (.err e, f, false)
  | .panicked m => (.panicked m, f, false)
  | .ok st =>
    let action := if st.patched then Action.undo else Action.apply
    match modify_file_op action st.version.changes f with
    | .err e => (.err e, f, true)
    | .panicked m => (.panicked m, f, true)
    | .ok f' =>
      match get_exe_state sha1 f' with
      | .ok _ => (.ok (), f', true)
      | .err e => (.err e, f', true)
      | .panicked m => (.panicked m, f', true)

/-- A parsed VDF entry of the external steamy_vdf crate: a string value or
a table of key-entry pairs. -/
inductive VdfEntry where
  | value (s : String)
  | table (entries : List (String × VdfEntry))

/-- Table lookup of the steamy_vdf crate (its tables are string-keyed
maps; an association-list scan returns the entry of the first matching
key). -/
def vdfLookup : List (String × VdfEntry) → String → Option VdfEntry
  | [], _ => none
  | (k, v) :: rest, key => if k = key then some v else vdfLookup rest key

/-- The environment of the resolver: the HOME variable, filesystem path
canonicalization, the external steamy_vdf loader, and fs::read_to_string.
A none result models failure of the corresponding call. -/
structure Env where
  homeVar      : Option String
  canonicalize : String → Option String
  vdfLoad      : String → Option VdfEntry
  readFile     : String → Option String

/-- The numeric value of a decimal digit character. -/
def digitVal (c : Char) : Option Nat :=
  if '0' ≤ c ∧ c ≤ '9' then some (c.toNat - 48) else none

/-- Fold a run of decimal digits into a number; none on any non-digit. -/
def parseDigits : List Char → Nat → Option Nat
  | [], acc => some acc
  | c :: cs, acc =>
    match digitVal c with
    | some d => parseDigits cs (acc * 10 + d)
    | none => none

/-- Parse an unsigned decimal integer the way the Rust FromStr
implementation for unsigned integers does, apart from the width bound: an
optional leading plus sign, then at least one digit, nothing else. -/
def strToNat (s : String) : Option Nat :=
  match s.data with
  | [] => none
  | '+' :: rest => if rest.isEmpty then none else parseDigits rest 0
  | cs => parseDigits cs 0

/-- Whether a string parses as a u32 (k.parse::<u32>() in the filter of
load_libraries_vdf): the decimal value must also fit in 32 bits. -/
def u32Parses (s : String) : Bool :=
  match strToNat s with
  | some n => decide (n < 4294967296)
  | none => false

/-- fn load_libraries_vdf: load the VDF index (a load failure propagates),
require a table with a LibraryFolders table inside, and keep, in order,
every entry whose key parses as a u32 and whose value is a string path
that canonicalizes successfully. -/
def load_libraries_vdf (env : Env) (path : String) : Except ProgError (List String) :=
  match env.vdfLoad path with
  | none => .error .vdfError
  | some (.value _) => .error (.patcher (.BadVDF path))
  | some (.table root) =>
    match vdfLookup root "LibraryFolders" with
    | some (.table entries) =>
      .ok (entries.filterMap fun kv =>
        if u32Parses kv.1 then
          match kv.2 with
          | .value p => env.canonicalize p
          | .table _ => none
        else none)
    | _ => .error (.patcher (.BadVDF path))

/-- The ASCII whitespace characters matched by the regex whitespace
class. -/
def isWs (c : Char) : Bool :=
  c = ' ' || c = '\t' || c = '\n' || c = '\r' || c = '\x0b' || c = '\x0c'

/-- End-of-pattern test for the trailing whitespace-star dollar of the
installdir pattern in multi-line mode: from here, a run of whitespace may
be consumed up to either the end of the text or a newline. -/
def wsEndOk : List Char → Bool
  | [] => true
  | c :: rest => if c = '\n' then true else if isWs c then wsEndOk rest else false

/-- The literal quoted key of the installdir pattern. -/
def quotedKey : List Char := "\"installdir\"".data

/-- Match the installdir pattern, anchored at a line start, against the
rest of the text: optional whitespace, the literal quoted key, at least
one whitespace character, a double-quoted nonempty value without inner
quotes, optional whitespace, end of line.  Returns the captured value.
Every quantified piece of the pattern is followed by a character it
excludes, so maximal munch computes exactly the regex match. -/
def matchFrom (cs : List Char) : Option String :=
  let cs1 := cs.dropWhile isWs
  if quotedKey.isPrefixOf cs1 then
    match cs1.drop quotedKey.length with
    | c :: rest =>
      if isWs c then
        match rest.dropWhile isWs with
        | '"' :: rest2 =>
          let val := rest2.takeWhile (fun d => d ≠ '"')
          if val.isEmpty then none
          else
            match rest2.drop val.length with
            | '"' :: rest3 => if wsEndOk rest3 then some (String.mk val) else none
            | _ => none
        | _ => none
      else none
    | [] => none
  else none

/-- The suffixes of the text that start right after a newline: together
with the whole text these are the positions where the multi-line anchor
of the pattern can match, in leftmost order. -/
def lineSuffixes : List Char → List (List Char)
  | [] => []
  | c :: rest =>
    if c = '\n' then rest :: lineSuffixes rest else lineSuffixes rest

/-- re.captures for the installdir pattern: the captured group of the
leftmost match, trying each line start from left to right. -/
def extract_installdir (manifest : String) : Option String :=
  (manifest.data :: lineSuffixes manifest.data).findSome? matchFrom

/-- fn get_install_dir_from_manifest: read the manifest (a read failure
propagates as an io error value), run the installdir pattern over it
(no match is the BadVDF error carrying the path), and prepend the fixed
common segment to the captured value. -/
def get_install_dir_from_manifest (env : Env) (manifest_path : String) :
    Except ProgError String :=
  match env.readFile manifest_path with
  | none => .error .ioError
  | some manifest =>
    match extract_installdir manifest with
    | none => .error (.patcher (.BadVDF manifest_path))
    | some dir => .ok ("common/" ++ dir)

/-- The closure of the find_map in fn find_install_path, for one candidate
library root: look for the manifest under its steamapps directory and on
success join the derived install directory onto it; the closure yields a
value for every candidate (the error case is returned, not skipped). -/
def try_library_path (env : Env) (manifest_filename : String)
    (library_path : String) : Except ProgError String :=
  let steamapps := library_path ++ "/steamapps"
  let manifest_path := steamapps ++ "/" ++ manifest_filename
  match get_install_dir_from_manifest env manifest_path with
  | .error e => .error e
  | .ok dir => .ok (steamapps ++ "/" ++ dir)

/-- fn find_install_path: read HOME (a failure propagates), canonicalize
the home Steam directory (a failure propagates), load the library index
(a failure propagates), append the home Steam directory to the candidate
roots, then find_map the per-candidate closure over the candidates,
falling back to the CantFindManifest error if no candidate yields a
value. -/
def find_install_path (env : Env) (appid : Nat) : Except ProgError String :=
  match env.homeVar with
  | none => .error .envError
  | some home =>
    match env.canonicalize (home ++ "/.steam/steam") with
    | none => .error .ioError
    | some home_steam =>
      let home_steamapps := home_steam ++ "/steamapps"
      let libraries_file_path := home_steamapps ++ "/libraryfolders.vdf"
      match load_libraries_vdf env libraries_file_path with
      | .error e => .error e
      | .ok paths =>
        let library_paths := paths ++ [home_steam]
        let manifest_filename := "appmanifest_" ++ toString appid ++ ".acf"
        match library_paths.findSome?
            (fun p => some (try_library_path env manifest_filename p)) with
        | some r => r
        | none => .error (.patcher (.CantFindManifest appid))

/-- Byte of a file at an index, reading zero past the end (an absent byte
can only compare equal to an absent byte at the same treatment). -/
def byteAt (l : List Byte) (i : Nat) : Byte := (l[i]?).getD 0

/-- Ideal-digest hypotheses for one registered version: a canonical
pristine file u carries the registered original bytes inside its bounds at
every change offset, the digest function takes the registered unpatched
hash exactly on u and the registered patched hash exactly on the patched
image of u.  This is the Version invariant of the specification together
with collision-freedom of the digest at the two registered values. -/
structure IdealHash (sha1 : List Byte → String) (v : Version) (u : List Byte) : Prop where
  fits      : ∀ c ∈ v.changes, c.offset + c.original.length ≤ u.length
  originals : ∀ c ∈ v.changes, ∀ j < c.original.length,
                byteAt u (c.offset + j) = byteAt c.original j
  hashU     : sha1 u = v.unpatched_hash
  hashP     : sha1 (modify_file .apply v.changes u) = v.patched_hash
  preU      : ∀ b, sha1 b = v.unpatched_hash → b = u
  preP      : ∀ b, sha1 b = v.patched_hash → b = modify_file .apply v.changes u

/-- Length of a concrete pristine file used by the witness theorems: one
byte past the largest registered change offset. -/
def NBytes : Nat := 0x01699cb3

/-- Byte of the concrete pristine file at a given index: the registered
original byte at each registered change offset, zero elsewhere. -/
def origByte (i : Nat) : Byte :=
  if i = 0x012f8b90 then 0x73
  else if i = 0x01699cb2 then 0xb8
  else if i = 0x0042d740 then 0xc0
  else 0

/-- A concrete pristine file for the witness theorems: NBytes bytes, the
registered original byte at each change offset, zero elsewhere. -/
def u0 : List Byte := (List.range NBytes).map origByte

/-- The patched image of the concrete pristine file. -/
def A0 : List Byte := modify_file .apply V0.changes u0

/-- A concrete digest function satisfying the ideal-digest hypotheses for
the registry: it takes the registered unpatched hash exactly on u0, the
registered patched hash exactly on A0, and the empty string elsewhere. -/
def sha1w (l : List Byte) : String :=
  if l = u0 then V0.unpatched_hash
  else if l = A0 then V0.patched_hash
  else ""

/-- A digest function recognizing only the pristine file: used to witness
a verification mismatch after a successful write. -/
def sha1u (l : List Byte) : String :=
  if l = u0 then V0.unpatched_hash else ""

/-- A digest function matching no registered hash. -/
def sha1blank : List Byte → String := fun _ => ""

/-- The manifest text of the second candidate root in the resolver
scenario: a tab, the quoted installdir key, spaces, the quoted value, a
newline. -/
def manifest2 : String := "\t\"installdir\"  \"Borderlands2\"\n"

/-- A concrete resolver environment with two library roots listed in the
index, where the appmanifest for 49520 is missing under the first root and
present and well-formed under the second. -/
def env0 : Env :=
  { homeVar := some "/home/u"
    canonicalize := fun s => some s
    vdfLoad := fun p =>
      if p = "/home/u/.steam/steam/steamapps/libraryfolders.vdf" then
        some (.table [("LibraryFolders",
          .table [("1", .value "/lib1"), ("2", .value "/lib2")])])
      else none
    readFile := fun p =>
      if p = "/lib2/steamapps/appmanifest_49520.acf" then some manifest2
      else none }

/-- A resolver environment in which the HOME variable is unset. -/
def env1 : Env :=
  { homeVar := none
    canonicalize := fun _ => none
    vdfLoad := fun _ => none
    readFile := fun _ => none }

/-- An empty open file with working seek, read and write. -/
def fOK : IOFile := { content := [], seekFails := false, readFails := false, writeFails := false }

/-- An empty open file whose seek calls fail. -/
def fSeekFail : IOFile :=
  { content := [], seekFails := true, readFails := false, writeFails := false }

/-- An empty open file whose read calls fail. -/
def fReadFail : IOFile :=
  { content := [], seekFails := false, readFails := true, writeFails := false }

/-- The concrete pristine file, open with working seek, read and write. -/
def fU0 : IOFile := { content := u0, seekFails := false, readFails := false, writeFails := false }

/-- The concrete pristine file, open with failing writes. -/
def fU0w : IOFile := { content := u0, seekFails := false, readFails := false, writeFails := true }

/-! Basic laws of writeAt and modify_file. -/

/-- Length after one seek-and-write: the file keeps its length when the
written range fits, and grows exactly to the end of the written range
otherwise. -/
theorem length_writeAt (f : List Byte) (o : Nat) (b : List Byte) :
    (writeAt f o b).length = max f.length (o + b.length) := by
  simp only [writeAt, List.length_append, List.length_take, List.length_replicate,
    List.length_drop]
  omega

/-- Content after one seek-and-write: the written bytes inside the target
range, the previous byte (zero past the old end) everywhere else. -/
theorem byteAt_writeAt (f : List Byte) (o : Nat) (b : List Byte) (i : Nat) :
    byteAt (writeAt f o b) i =
      if o ≤ i ∧ i < o + b.length then byteAt b (i - o) else byteAt f i := by
  have hPQ : (f.take o ++ List.replicate (o - f.length) (0 : Byte)).length = o := by
    simp only [List.length_append, List.length_take, List.length_replicate]
    omega
  have hL : writeAt f o b =
      (f.take o ++ List.replicate (o - f.length) 0) ++ (b ++ f.drop (o + b.length)) := by
    simp [writeAt]
  have key : (writeAt f o b)[i]? =
      if i < o then (f.take o ++ List.replicate (o - f.length) 0)[i]?
      else (b ++ f.drop (o + b.length))[i - o]? := by
    rw [hL, List.getElem?_append, hPQ]
  have hta : (f.take o).length = min o f.length := List.length_take o f
  simp only [byteAt]
  rw [key]
  by_cases h1 : i < o
  · rw [if_pos h1, if_neg (show ¬ (o ≤ i ∧ i < o + b.length) by omega),
      List.getElem?_append]
    by_cases h2 : i < (f.take o).length
    · rw [if_pos h2, List.getElem?_take, if_pos h1]
    · rw [hta] at h2
      have hfl : f.length ≤ i := by omega
      rw [if_neg (by rw [hta]; exact h2), List.getElem?_replicate,
        List.getElem?_eq_none hfl]
      by_cases h3 : i - (f.take o).length < o - f.length
      · rw [if_pos h3]
        rfl
      · rw [if_neg h3]
  · rw [if_neg h1, List.getElem?_append]
    by_cases h2 : i - o < b.length
    · rw [if_pos h2, if_pos (show o ≤ i ∧ i < o + b.length by omega)]
    · rw [if_neg h2, if_neg (show ¬ (o ≤ i ∧ i < o + b.length) by omega),
        List.getElem?_drop, show o + b.length + (i - o - b.length) = i by omega]

/-- Extensionality through byteAt: equal lengths and equal bytes at every
index give equal contents. -/
theorem byteAt_ext {l1 l2 : List Byte} (hlen : l1.length = l2.length)
    (h : ∀ i, byteAt l1 i = byteAt l2 i) : l1 = l2 := by
  refine List.ext_getElem hlen (fun n h1 h2 => ?_)
  have hn := h n
  simp only [byteAt, List.getElem?_eq_getElem h1, List.getElem?_eq_getElem h2,
    Option.getD_some] at hn
  exact hn

/-- Applying a change list whose ranges all fit inside the file never
changes its length. -/
theorem length_modify_file (a : Action) (cs : List Change) (f : List Byte)
    (fits : ∀ c ∈ cs, c.offset + (actionBytes a c).length ≤ f.length) :
    (modify_file a cs f).length = f.length := by
  induction cs generalizing f with
  | nil => rfl
  | cons c rest ih =>
    have hc : c.offset + (actionBytes a c).length ≤ f.length := fits c (by simp)
    have hw : (writeAt f c.offset (actionBytes a c)).length = f.length := by
      rw [length_writeAt]; omega
    show (modify_file a rest (writeAt f c.offset (actionBytes a c))).length = f.length
    rw [ih _ (fun c' hc' => by rw [hw]; exact fits c' (by simp [hc']))]
    exact hw

/-- A byte outside every written range is untouched by modify_file. -/
theorem byteAt_modify_file_outside (a : Action) (cs : List Change) (f : List Byte)
    (i : Nat)
    (hout : ∀ c ∈ cs, i < c.offset ∨ c.offset + (actionBytes a c).length ≤ i) :
    byteAt (modify_file a cs f) i = byteAt f i := by
  induction cs generalizing f with
  | nil => rfl
  | cons c rest ih =>
    show byteAt (modify_file a rest (writeAt f c.offset (actionBytes a c))) i = byteAt f i
    rw [ih _ (fun c' hc' => hout c' (by simp [hc']))]
    rw [byteAt_writeAt]
    have := hout c (by simp)
    rw [if_neg (by omega)]

/-- With pairwise disjoint ranges, a byte inside the range of a change
ends up as the corresponding written byte of that change. -/
theorem byteAt_modify_file_inside (a : Action) (cs : List Change) (f : List Byte)
    (c : Change) (hc : c ∈ cs)
    (hdisj : cs.Pairwise (fun c1 c2 =>
      c1.offset + (actionBytes a c1).length ≤ c2.offset ∨
      c2.offset + (actionBytes a c2).length ≤ c1.offset))
    (j : Nat) (hj : j < (actionBytes a c).length) :
    byteAt (modify_file a cs f) (c.offset + j) = byteAt (actionBytes a c) j := by
  induction cs generalizing f with
  | nil => cases hc
  | cons c' rest ih =>
    rw [List.pairwise_cons] at hdisj
    rcases List.mem_cons.mp hc with rfl | hmem
    · show byteAt (modify_file a rest (writeAt f c.offset (actionBytes a c)))
          (c.offset + j) = byteAt (actionBytes a c) j
      rw [byteAt_modify_file_outside a rest _ _ (fun c'' hc'' => by
        have := hdisj.1 c'' hc''
        omega)]
      rw [byteAt_writeAt, if_pos (by omega : c.offset ≤ c.offset + j ∧
        c.offset + j < c.offset + (actionBytes a c).length)]
      congr 1
      omega
    · exact ih _ hmem hdisj.2

/-- Round trip of the patch engine: on a file that carries the original
bytes of a disjoint, length-preserving change list, applying the changes
and then undoing them restores the file exactly. -/
theorem modify_file_roundtrip (cs : List Change) (f : List Byte)
    (lenEq : ∀ c ∈ cs, c.original.length = c.patch.length)
    (fits : ∀ c ∈ cs, c.offset + c.patch.length ≤ f.length)
    (horig : ∀ c ∈ cs, ∀ j < c.original.length,
      byteAt f (c.offset + j) = byteAt c.original j)
    (hdisj : cs.Pairwise (fun c1 c2 =>
      c1.offset + c1.patch.length ≤ c2.offset ∨
      c2.offset + c2.patch.length ≤ c1.offset)) :
    modify_file .undo cs (modify_file .apply cs f) = f := by
  have fitsA : ∀ c ∈ cs, c.offset + (actionBytes .apply c).length ≤ f.length :=
    fun c hc => fits c hc
  have lenA : (modify_file .apply cs f).length = f.length :=
    length_modify_file _ _ _ fitsA
  have fitsU : ∀ c ∈ cs,
      c.offset + (actionBytes .undo c).length ≤ (modify_file .apply cs f).length := by
    intro c hc
    have h1 := lenEq c hc
    have h2 := fits c hc
    simp only [actionBytes, lenA]
    omega
  have hdisjA : cs.Pairwise (fun c1 c2 =>
      c1.offset + (actionBytes .apply c1).length ≤ c2.offset ∨
      c2.offset + (actionBytes .apply c2).length ≤ c1.offset) := hdisj
  have hdisjU : cs.Pairwise (fun c1 c2 =>
      c1.offset + (actionBytes .undo c1).length ≤ c2.offset ∨
      c2.offset + (actionBytes .undo c2).length ≤ c1.offset) := by
    refine hdisj.imp_of_mem (fun ha hb h => ?_)
    have h1 := lenEq _ ha
    have h2 := lenEq _ hb
    simp only [actionBytes]
    omega
  refine byteAt_ext (by rw [length_modify_file _ _ _ fitsU, lenA]) (fun i => ?_)
  by_cases hcov : ∃ c, c ∈ cs ∧ c.offset ≤ i ∧ i < c.offset + c.patch.length
  · obtain ⟨c, hc, h5, h6⟩ := hcov
    have hj : i - c.offset < (actionBytes Action.undo c).length := by
      have := lenEq c hc
      simp only [actionBytes]
      omega
    have hi : i = c.offset + (i - c.offset) := by omega
    rw [hi, byteAt_modify_file_inside .undo cs _ c hc hdisjU _ hj]
    have horigc := horig c hc (i - c.offset) (by have := lenEq c hc; omega)
    simp only [actionBytes]
    exact horigc.symm
  · push_neg at hcov
    rw [byteAt_modify_file_outside .undo cs _ i (fun c hc => by
      have h1 := hcov c hc
      have h2 := lenEq c hc
      simp only [actionBytes]
      omega)]
    rw [byteAt_modify_file_outside .apply cs _ i (fun c hc => by
      have h1 := hcov c hc
      simp only [actionBytes]
      omega)]

/-! Facts about the compiled-in registry and the classification scan. -/

/-- Every registered change preserves length: original and patch bytes
have the same length. -/
theorem registry_lenEq : ∀ c ∈ V0.changes, c.original.length = c.patch.length := by
  decide

/-- The registered change ranges are pairwise disjoint. -/
theorem registry_disjoint : V0.changes.Pairwise (fun c1 c2 =>
    c1.offset + c1.patch.length ≤ c2.offset ∨
    c2.offset + c2.patch.length ≤ c1.offset) := by
  decide

/-- The two registered digests differ. -/
theorem registry_hashes_ne : V0.unpatched_hash ≠ V0.patched_hash := by
  decide

/-- The registry holds exactly one version. -/
theorem mem_VERSIONS {v : Version} (h : v ∈ VERSIONS) : v = V0 := by
  simpa [VERSIONS] using h

/-- The registry scan, evaluated over the one-entry registry. -/
theorem classify_eq (d : String) :
    classify d VERSIONS =
      if d = V0.unpatched_hash then .ok { version := V0, patched := false }
      else if d = V0.patched_hash then .ok { version := V0, patched := true }
      else .error (.patcher (.UnknownVersion d)) := rfl

/-- Classification with working seek and read: the digest of the whole
content is scanned against the registry, and the only possible failure is
the UnknownVersion error. -/
theorem get_exe_state_eq (sha1 : List Byte → String) (f : IOFile)
    (hs : f.seekFails = false) (hr : f.readFails = false) :
    get_exe_state sha1 f =
      match classify (sha1 f.content) VERSIONS with
      | .ok st => .ok st
      | .error e => .err e := by
  simp [get_exe_state, hs, hr]

/-! Facts about the concrete pristine file u0 and digest sha1w. -/

/-- Length of the concrete pristine file. -/
theorem length_u0 : u0.length = NBytes := by
  simp [u0]

/-- Bytes of the concrete pristine file. -/
theorem byteAt_u0 (i : Nat) (h : i < NBytes) : byteAt u0 i = origByte i := by
  simp only [byteAt, u0, List.getElem?_map, List.getElem?_range h, Option.map_some',
    Option.getD_some]

/-- The patched image differs from the pristine file (the first change
overwrites 0x73 with 0x00). -/
theorem A0_ne_u0 : A0 ≠ u0 := by
  intro h
  have h1 : byteAt A0 0x012f8b90 = 0x00 := by
    have h2 := byteAt_modify_file_inside .apply V0.changes u0
      { offset := 0x012f8b90, original := [0x73], patch := [0x00] }
      (by decide) registry_disjoint 0 (by decide)
    simpa using h2
  have h3 : byteAt u0 0x012f8b90 = 0x73 := by
    rw [byteAt_u0 _ (by decide)]
    decide
  rw [h] at h1
  exact absurd (h1.symm.trans h3) (by decide)

/-- The concrete digest sha1w together with u0 satisfies the ideal-digest
hypotheses for the registered version. -/
theorem idealHash_w : IdealHash sha1w V0 u0 := by
  refine ⟨?_, ?_, ?_, ?_, ?_, ?_⟩
  · simp only [length_u0]
    decide
  · intro c hc
    fin_cases hc
    all_goals intro j hj
    all_goals have hj0 : j = 0 := by simp at hj; omega
    all_goals subst hj0
    all_goals rw [byteAt_u0]
    all_goals decide
  · simp [sha1w]
  · show sha1w A0 = V0.patched_hash
    simp [sha1w, A0_ne_u0]
  · intro b hb
    simp only [sha1w] at hb
    by_cases h1 : b = u0
    · exact h1
    · by_cases h2 : b = A0
      · rw [if_neg h1, if_pos h2] at hb
        exact absurd hb.symm registry_hashes_ne
      · rw [if_neg h1, if_neg h2] at hb
        exact absurd hb (by decide)
  · intro b hb
    simp only [sha1w] at hb
    by_cases h1 : b = u0
    · rw [if_pos h1] at hb
      exact absurd hb registry_hashes_ne
    · by_cases h2 : b = A0
      · exact h2
      · rw [if_neg h1, if_neg h2] at hb
        exact absurd hb (by decide)

attribute [irreducible] u0

/-! The claims. -/

/-- C1: for every registered Version v and every byte buffer whose content
digest equals the registered unpatched hash of v — under the ideal-digest
hypotheses of the specification (IdealHash) — applying the changes of v in
the Apply (Forward) direction and then in the Undo (Reverse) direction,
each via the seek-and-overwrite sequence of modify_file, yields content
identical to the original buffer, hence whose digest again equals the
registered unpatched hash. -/
theorem C1_apply_undo_roundtrip (sha1 : List Byte → String)
    (v : Version) (hv : v ∈ VERSIONS) (u : List Byte) (hi : IdealHash sha1 v u)
    (buf : List Byte) (hbuf : sha1 buf = v.unpatched_hash) :
    modify_file .undo v.changes (modify_file .apply v.changes buf) = buf ∧
    sha1 (modify_file .undo v.changes (modify_file .apply v.changes buf))
      = v.unpatched_hash := by
  have hbu : buf = u := hi.preU buf hbuf
  subst hbu
  have hV : v = V0 := mem_VERSIONS hv
  have lenEq : ∀ c ∈ v.changes, c.original.length = c.patch.length := by
    rw [hV]; exact registry_lenEq
  have hdisj : v.changes.Pairwise (fun c1 c2 =>
      c1.offset + c1.patch.length ≤ c2.offset ∨
      c2.offset + c2.patch.length ≤ c1.offset) := by
    rw [hV]; exact registry_disjoint
  have fits : ∀ c ∈ v.changes, c.offset + c.patch.length ≤ buf.length := by
    intro c hc
    have h1 := hi.fits c hc
    have h2 := lenEq c hc
    omega
  have hrt := modify_file_roundtrip v.changes buf lenEq fits hi.originals hdisj
  exact ⟨hrt, by rw [hrt, hbuf]⟩

/-- C1 witness: the round-trip theorem applied at the concrete digest
function sha1w, the concrete pristine file u0 and the registered
version. -/
theorem C1_apply_undo_roundtrip_witness :
    sha1w u0 = V0.unpatched_hash ∧
    (modify_file .undo V0.changes (modify_file .apply V0.changes u0) = u0 ∧
     sha1w (modify_file .undo V0.changes (modify_file .apply V0.changes u0))
       = V0.unpatched_hash) :=
  ⟨idealHash_w.hashU,
   C1_apply_undo_roundtrip sha1w V0 (by simp [VERSIONS]) u0 idealHash_w u0
     idealHash_w.hashU⟩

/-- C9: for every Version in the compiled-in registry, the byte ranges
from offset to offset plus patch length of its Changes are pairwise
disjoint. -/
theorem C9_registry_changes_disjoint :
    ∀ v ∈ VERSIONS, v.changes.Pairwise (fun c1 c2 =>
      c1.offset + c1.patch.length ≤ c2.offset ∨
      c2.offset + c2.patch.length ≤ c1.offset) := by
  decide

/-- C9 witness: the disjointness theorem applied to the registered
version. -/
theorem C9_registry_changes_disjoint_witness :
    V0 ∈ VERSIONS ∧ V0.changes.Pairwise (fun c1 c2 =>
      c1.offset + c1.patch.length ≤ c2.offset ∨
      c2.offset + c2.patch.length ≤ c1.offset) :=
  ⟨by simp [VERSIONS], C9_registry_changes_disjoint V0 (by simp [VERSIONS])⟩

/-- C8: applying the changes of a registered version in either direction,
on a file inside which every written range fits, keeps the length of the
file, modifies no byte outside the ranges of the changes, writes the patch
bytes (Apply) or the original bytes (Undo) inside each range, and every
registered change has original and patch bytes of the same length. -/
theorem C8_frame (v : Version) (hv : v ∈ VERSIONS) (a : Action) (f : List Byte)
    (fits : ∀ c ∈ v.changes, c.offset + c.patch.length ≤ f.length) :
    (modify_file a v.changes f).length = f.length ∧
    (∀ i, (∀ c ∈ v.changes, i < c.offset ∨ c.offset + c.patch.length ≤ i) →
      byteAt (modify_file a v.changes f) i = byteAt f i) ∧
    (∀ c ∈ v.changes, ∀ j < c.patch.length,
      byteAt (modify_file a v.changes f) (c.offset + j) = byteAt (actionBytes a c) j) ∧
    (∀ c ∈ v.changes, c.original.length = c.patch.length) := by
  have hV : v = V0 := mem_VERSIONS hv
  subst hV
  have actionLen : ∀ c ∈ V0.changes, (actionBytes a c).length = c.patch.length := by
    intro c hc
    cases a
    · rfl
    · simp only [actionBytes]
      exact registry_lenEq c hc
  have fitsA : ∀ c ∈ V0.changes, c.offset + (actionBytes a c).length ≤ f.length := by
    intro c hc
    rw [actionLen c hc]
    exact fits c hc
  have hdisjA : V0.changes.Pairwise (fun c1 c2 =>
      c1.offset + (actionBytes a c1).length ≤ c2.offset ∨
      c2.offset + (actionBytes a c2).length ≤ c1.offset) := by
    refine registry_disjoint.imp_of_mem (fun ha hb h => ?_)
    rw [actionLen _ ha, actionLen _ hb]
    exact h
  refine ⟨length_modify_file a V0.changes f fitsA, ?_, ?_, registry_lenEq⟩
  · intro i hi
    refine byteAt_modify_file_outside a V0.changes f i (fun c hc => ?_)
    have h1 := hi c hc
    have h2 := actionLen c hc
    omega
  · intro c hc j hj
    refine byteAt_modify_file_inside a V0.changes f c hc hdisjA j ?_
    rw [actionLen c hc]
    exact hj

/-- C8 witness: the frame theorem applied to the registered version, the
Apply direction and the concrete pristine file u0. -/
theorem C8_frame_witness :
    V0 ∈ VERSIONS ∧
    (∀ c ∈ V0.changes, c.offset + c.patch.length ≤ u0.length) ∧
    ((modify_file .apply V0.changes u0).length = u0.length ∧
     (∀ i, (∀ c ∈ V0.changes, i < c.offset ∨ c.offset + c.patch.length ≤ i) →
       byteAt (modify_file .apply V0.changes u0) i = byteAt u0 i) ∧
     (∀ c ∈ V0.changes, ∀ j < c.patch.length,
       byteAt (modify_file .apply V0.changes u0) (c.offset + j)
         = byteAt (actionBytes .apply c) j) ∧
     (∀ c ∈ V0.changes, c.original.length = c.patch.length)) := by
  have hmem : V0 ∈ VERSIONS := by simp [VERSIONS]
  have hfits : ∀ c ∈ V0.changes, c.offset + c.patch.length ≤ u0.length := by
    simp only [length_u0]
    decide
  exact ⟨hmem, hfits, C8_frame V0 hmem .apply u0 hfits⟩

/-- C3: with working seek and read, classification fingerprints the entire
content (after the seek to the start) and scans the registry linearly for
an exact digest match: the result carries patched := false exactly when
the digest equals the unpatched hash of a registered version, carries
patched := true exactly when it equals the patched hash of a registered
version, and is the UnknownVersion error carrying the digest exactly when
the digest matches neither hash of any registered version. -/
theorem C3_classification (sha1 : List Byte → String) (f : IOFile)
    (hs : f.seekFails = false) (hr : f.readFails = false) :
    (∀ v ∈ VERSIONS,
      (get_exe_state sha1 f = .ok { version := v, patched := false } ↔
        sha1 f.content = v.unpatched_hash)) ∧
    (∀ v ∈ VERSIONS,
      (get_exe_state sha1 f = .ok { version := v, patched := true } ↔
        sha1 f.content = v.patched_hash)) ∧
    (get_exe_state sha1 f = .err (.patcher (.UnknownVersion (sha1 f.content))) ↔
      (∀ v ∈ VERSIONS, sha1 f.content ≠ v.unpatched_hash ∧
        sha1 f.content ≠ v.patched_hash)) := by
  rw [get_exe_state_eq sha1 f hs hr]
  have hne := registry_hashes_ne
  generalize sha1 f.content = d
  rw [classify_eq]
  simp only [VERSIONS, List.mem_singleton, forall_eq]
  by_cases hU : d = V0.unpatched_hash
  · subst hU
    simp [hne]
  · by_cases hP : d = V0.patched_hash
    · subst hP
      have hne2 : V0.patched_hash ≠ V0.unpatched_hash := fun h => hne h.symm
      simp [hne2]
    · simp [hU, hP]

/-- C3 witness: the classification theorem applied to a concrete digest
function and the empty open file. -/
theorem C3_classification_witness :
    fOK.seekFails = false ∧ fOK.readFails = false ∧
    ((∀ v ∈ VERSIONS,
      (get_exe_state sha1blank fOK = .ok { version := v, patched := false } ↔
        sha1blank fOK.content = v.unpatched_hash)) ∧
    (∀ v ∈ VERSIONS,
      (get_exe_state sha1blank fOK = .ok { version := v, patched := true } ↔
        sha1blank fOK.content = v.patched_hash)) ∧
    (get_exe_state sha1blank fOK
        = .err (.patcher (.UnknownVersion (sha1blank fOK.content))) ↔
      (∀ v ∈ VERSIONS, sha1blank fOK.content ≠ v.unpatched_hash ∧
        sha1blank fOK.content ≠ v.patched_hash))) :=
  ⟨rfl, rfl, C3_classification sha1blank fOK rfl rfl⟩

/-- C5 counterexample: the claim that a failure of the underlying read
during fingerprinting is propagated to the top level as an error value is
false: at the concrete read-failing file the run aborts via panic (the
code calls expect on each fill_buf result), so no error value exists. -/
theorem C5_read_failure_counterexample :
    get_exe_state sha1blank fReadFail = .panicked "I/O Error" ∧
    ¬ (∀ (sha1 : List Byte → String) (f : IOFile), f.readFails = true →
        ∃ e, get_exe_state sha1 f = .err e) := by
  refine ⟨rfl, fun h => ?_⟩
  obtain ⟨e, he⟩ := h sha1blank fReadFail rfl
  have hp : get_exe_state sha1blank fReadFail = .panicked "I/O Error" := rfl
  rw [hp] at he
  exact IOResult.noConfusion he

/-- C5 amended: fingerprinting fails only when the initial seek or the
underlying read fails; a seek failure is propagated to the top level as an
io error value, while a read failure during hashing aborts the process via
panic with message "I/O Error" instead of being propagated as an error
value; with working seek and read the fingerprinting itself never fails
and the only possible error of classification is the UnknownVersion
rejection. -/
theorem C5_fingerprint_failure (sha1 : List Byte → String) (f : IOFile) :
    (f.seekFails = true → get_exe_state sha1 f = .err .ioError) ∧
    (f.seekFails = false → f.readFails = true →
      get_exe_state sha1 f = .panicked "I/O Error") ∧
    (f.seekFails = false → f.readFails = false →
      (∃ st, get_exe_state sha1 f = .ok st) ∨
      get_exe_state sha1 f = .err (.patcher (.UnknownVersion (sha1 f.content)))) := by
  refine ⟨fun hs => by simp [get_exe_state, hs],
          fun hs hr => by simp [get_exe_state, hs, hr],
          fun hs hr => ?_⟩
  rw [get_exe_state_eq sha1 f hs hr, classify_eq]
  by_cases hU : sha1 f.content = V0.unpatched_hash
  · exact Or.inl ⟨{ version := V0, patched := false }, by rw [if_pos hU]⟩
  · by_cases hP : sha1 f.content = V0.patched_hash
    · exact Or.inl ⟨{ version := V0, patched := true }, by rw [if_neg hU, if_pos hP]⟩
    · exact Or.inr (by rw [if_neg hU, if_neg hP])

/-- C5 witness: the amended theorem applied at concrete seek-failing,
read-failing and working files. -/
theorem C5_fingerprint_failure_witness :
    fSeekFail.seekFails = true ∧
    get_exe_state sha1blank fSeekFail = .err .ioError ∧
    fReadFail.seekFails = false ∧ fReadFail.readFails = true ∧
    get_exe_state sha1blank fReadFail = .panicked "I/O Error" ∧
    ((∃ st, get_exe_state sha1blank fOK = .ok st) ∨
      get_exe_state sha1blank fOK
        = .err (.patcher (.UnknownVersion (sha1blank fOK.content)))) :=
  ⟨rfl, (C5_fingerprint_failure sha1blank fSeekFail).1 rfl, rfl, rfl,
   (C5_fingerprint_failure sha1blank fReadFail).2.1 rfl rfl,
   (C5_fingerprint_failure sha1blank fOK).2.2 rfl rfl⟩

/-- C7: with working seek and read, a file whose digest matches neither
the unpatched nor the patched hash of any registered version makes the run
stop with the UnknownVersion error carrying the digest, with the content
unchanged and modify_file never invoked. -/
theorem C7_unknown_no_write (sha1 : List Byte → String) (f : IOFile)
    (hs : f.seekFails = false) (hr : f.readFails = false)
    (hunk : ∀ v ∈ VERSIONS, sha1 f.content ≠ v.unpatched_hash ∧
      sha1 f.content ≠ v.patched_hash) :
    run_patch sha1 f
      = (.err (.patcher (.UnknownVersion (sha1 f.content))), f, false) := by
  have h1 := hunk V0 (by simp [VERSIONS])
  have h2 : get_exe_state sha1 f = .err (.patcher (.UnknownVersion (sha1 f.content))) := by
    rw [get_exe_state_eq sha1 f hs hr, classify_eq, if_neg h1.1, if_neg h1.2]
  simp [run_patch, h2]

/-- C7 witness: the unknown-rejection theorem applied at a digest function
matching no registered hash and the empty open file. -/
theorem C7_unknown_no_write_witness :
    fOK.seekFails = false ∧ fOK.readFails = false ∧
    (∀ v ∈ VERSIONS, sha1blank fOK.content ≠ v.unpatched_hash ∧
      sha1blank fOK.content ≠ v.patched_hash) ∧
    run_patch sha1blank fOK
      = (.err (.patcher (.UnknownVersion (sha1blank fOK.content))), fOK, false) :=
  ⟨rfl, rfl, by decide, C7_unknown_no_write sha1blank fOK rfl rfl (by decide)⟩

/-- With working seek and write, the patch application step succeeds and
replaces the content by the modified content. -/
theorem modify_file_op_ok (a : Action) (cs : List Change) (f : IOFile)
    (hs : f.seekFails = false) (hw : f.writeFails = false) :
    modify_file_op a cs f = .ok { f with content := modify_file a cs f.content } := by
  cases cs with
  | nil => rfl
  | cons c cs => simp [modify_file_op, hs, hw]

/-- With all three I/O capabilities working and a successful
classification, the run applies the direction-selected changes and
returns the outcome of the verification scan on the modified file. -/
theorem run_patch_write_ok (sha1 : List Byte → String) (f : IOFile) (st : ExeState)
    (hs : f.seekFails = false) (hr : f.readFails = false) (hw : f.writeFails = false)
    (hclass : classify (sha1 f.content) VERSIONS = .ok st) :
    run_patch sha1 f =
      ((match classify (sha1 (modify_file (if st.patched then Action.undo else Action.apply)
            st.version.changes f.content)) VERSIONS with
        | .ok _ => IOResult.ok ()
        | .error e => IOResult.err e),
        { f with content := (modify_file (if st.patched then Action.undo else Action.apply)
            st.version.changes f.content) },
        true) := by
  have hget : get_exe_state sha1 f = .ok st := by
    rw [get_exe_state_eq sha1 f hs hr, hclass]
  have hmod := modify_file_op_ok
    (if st.patched then Action.undo else Action.apply) st.version.changes f hs hw
  have hget2 : get_exe_state sha1
      { f with content := (modify_file (if st.patched then Action.undo else Action.apply)
          st.version.changes f.content) } =
      match classify (sha1 (modify_file (if st.patched then Action.undo else Action.apply)
          st.version.changes f.content)) VERSIONS with
      | .ok st2 => .ok st2
      | .error e => .err e := get_exe_state_eq sha1 _ hs hr
  simp only [run_patch, hget, hmod, hget2]
  cases classify (sha1 (modify_file (if st.patched then Action.undo else Action.apply)
      st.version.changes f.content)) VERSIONS with
  | ok st2 => rfl
  | error e => rfl

/-- C6: a write failure during patch application and a verification
mismatch after successful writes surface as distinguishable error
outcomes: the former yields the propagated io error value, the latter
yields the UnknownVersion error of the post-patch re-classification, and
the two error values are never equal. -/
theorem C6_write_failure_vs_verification (sha1 : List Byte → String) (f : IOFile)
    (st : ExeState) (hclass : classify (sha1 f.content) VERSIONS = .ok st) :
    (f.seekFails = false → f.readFails = false → f.writeFails = true →
      st.version.changes ≠ [] →
      run_patch sha1 f = (.err .ioError, f, true)) ∧
    (f.seekFails = false → f.readFails = false → f.writeFails = false →
      ∀ d, classify (sha1 (modify_file (if st.patched then Action.undo else Action.apply)
              st.version.changes f.content)) VERSIONS
            = .error (.patcher (.UnknownVersion d)) →
        (run_patch sha1 f).1 = .err (.patcher (.UnknownVersion d))) ∧
    (∀ d, (ProgError.patcher (.UnknownVersion d)) ≠ ProgError.ioError) := by
  refine ⟨?_, ?_, fun d h => ProgError.noConfusion h⟩
  · intro hs hr hw hch
    have hget : get_exe_state sha1 f = .ok st := by
      rw [get_exe_state_eq sha1 f hs hr, hclass]
    rcases hcs : st.version.changes with _ | ⟨c, cs⟩
    · exact absurd hcs hch
    · simp [run_patch, hget, modify_file_op, hcs, hs, hw]
  · intro hs hr hw d hver
    rw [run_patch_write_ok sha1 f st hs hr hw hclass]
    simp [hver]

/-- Digest of the pristine file under the mismatch-witness digest
function. -/
theorem sha1u_u0 : sha1u u0 = V0.unpatched_hash := by
  simp [sha1u]

/-- The patched image is not recognized by the mismatch-witness digest
function. -/
theorem sha1u_A0 : sha1u A0 = "" := by
  simp [sha1u, A0_ne_u0]

/-- Classification of the pristine file under sha1u. -/
theorem classify_sha1u_u0 :
    classify (sha1u u0) VERSIONS = .ok { version := V0, patched := false } := by
  rw [sha1u_u0, classify_eq, if_pos rfl]

/-- Classification of the patched image under sha1u: unrecognized. -/
theorem classify_sha1u_A0 :
    classify (sha1u A0) VERSIONS = .error (.patcher (.UnknownVersion "")) := by
  rw [sha1u_A0, classify_eq, if_neg (by decide), if_neg (by decide)]

/-- The content of the open pristine file. -/
theorem fU0_content : fU0.content = u0 := by
  simp [fU0]

/-- The content of the open pristine file with failing writes. -/
theorem fU0w_content : fU0w.content = u0 := by
  simp [fU0w]

/-- Classification of the open pristine file with failing writes under
sha1u. -/
theorem classify_sha1u_fU0w :
    classify (sha1u fU0w.content) VERSIONS = .ok { version := V0, patched := false } := by
  rw [fU0w_content]
  exact classify_sha1u_u0

/-- Classification of the open pristine file under sha1u. -/
theorem classify_sha1u_fU0 :
    classify (sha1u fU0.content) VERSIONS = .ok { version := V0, patched := false } := by
  rw [fU0_content]
  exact classify_sha1u_u0

/-- The verification scan after patching the open pristine file under
sha1u: unrecognized. -/
theorem classify_sha1u_ver :
    classify (sha1u (modify_file
        (if ({ version := V0, patched := false } : ExeState).patched
          then Action.undo else Action.apply)
        ({ version := V0, patched := false } : ExeState).version.changes
        fU0.content)) VERSIONS
      = .error (.patcher (.UnknownVersion "")) := by
  have h1 : modify_file
      (if ({ version := V0, patched := false } : ExeState).patched
        then Action.undo else Action.apply)
      ({ version := V0, patched := false } : ExeState).version.changes
      fU0.content = A0 := by
    show modify_file Action.apply V0.changes fU0.content = A0
    rw [fU0_content]
    exact rfl
  rw [h1]
  exact classify_sha1u_A0

/-- C6 witness: the distinguishability theorem applied at the concrete
pristine file, once with failing writes and once with a digest function
that does not recognize the patched image. -/
theorem C6_write_failure_vs_verification_witness :
    run_patch sha1u fU0w = (.err .ioError, fU0w, true) ∧
    (run_patch sha1u fU0).1 = .err (.patcher (.UnknownVersion "")) ∧
    (ProgError.patcher (.UnknownVersion "") ≠ ProgError.ioError) :=
  ⟨(C6_write_failure_vs_verification sha1u fU0w { version := V0, patched := false }
      classify_sha1u_fU0w).1 rfl rfl rfl (by decide),
   (C6_write_failure_vs_verification sha1u fU0 { version := V0, patched := false }
      classify_sha1u_fU0).2.1 rfl rfl rfl "" classify_sha1u_ver,
   (C6_write_failure_vs_verification sha1u fU0 { version := V0, patched := false }
      classify_sha1u_fU0).2.2 ""⟩

/-- The registered change list round-trips on any file that carries the
registered original bytes inside its bounds. -/
theorem registry_roundtrip (u : List Byte)
    (fits : ∀ c ∈ V0.changes, c.offset + c.original.length ≤ u.length)
    (horig : ∀ c ∈ V0.changes, ∀ j < c.original.length,
      byteAt u (c.offset + j) = byteAt c.original j) :
    modify_file .undo V0.changes (modify_file .apply V0.changes u) = u := by
  refine modify_file_roundtrip V0.changes u registry_lenEq ?_ horig registry_disjoint
  intro c hc
  have h1 := registry_lenEq c hc
  have h2 := fits c hc
  omega

/-- Classification of the registered unpatched digest. -/
theorem classify_UH :
    classify V0.unpatched_hash VERSIONS = .ok { version := V0, patched := false } := by
  rw [classify_eq, if_pos rfl]

/-- Classification of the registered patched digest. -/
theorem classify_PH :
    classify V0.patched_hash VERSIONS = .ok { version := V0, patched := true } := by
  rw [classify_eq, if_neg (fun h => registry_hashes_ne h.symm), if_pos rfl]

/-- C2: under the ideal-digest hypotheses, with working seek, read and
write, a run on a file in a known state (digest equal to the registered
unpatched or patched hash) applies the direction-appropriate changes and
its verification step lands exactly in the opposite known state of the
same version — never unrecognized, never corrupted — and a second run
returns the file to its original content. -/
theorem C2_toggle (sha1 : List Byte → String) (u : List Byte)
    (hi : IdealHash sha1 V0 u) (f : IOFile)
    (hs : f.seekFails = false) (hr : f.readFails = false) (hw : f.writeFails = false)
    (hknown : sha1 f.content = V0.unpatched_hash ∨ sha1 f.content = V0.patched_hash) :
    ∃ f', run_patch sha1 f = (.ok (), f', true) ∧
      (sha1 f.content = V0.unpatched_hash →
        get_exe_state sha1 f' = .ok { version := V0, patched := true }) ∧
      (sha1 f.content = V0.patched_hash →
        get_exe_state sha1 f' = .ok { version := V0, patched := false }) ∧
      ∃ f'', run_patch sha1 f' = (.ok (), f'', true) ∧ f''.content = f.content := by
  have hrt : modify_file .undo V0.changes (modify_file .apply V0.changes u) = u :=
    registry_roundtrip u hi.fits hi.originals
  rcases hknown with hU | hP
  · have hcu : f.content = u := hi.preU _ hU
    have h1 : run_patch sha1 f =
        ((match classify (sha1 (modify_file .apply V0.changes f.content)) VERSIONS with
          | .ok _ => IOResult.ok ()
          | .error e => IOResult.err e),
         { f with content := modify_file .apply V0.changes f.content }, true) :=
      run_patch_write_ok sha1 f { version := V0, patched := false } hs hr hw
        (by rw [hU]; exact classify_UH)
    rw [hcu] at h1
    rw [hi.hashP, classify_PH] at h1
    refine ⟨{ f with content := modify_file .apply V0.changes u }, h1, fun _ => ?_,
      fun hP => absurd (hU.symm.trans hP) registry_hashes_ne, ?_⟩
    · have h2 : get_exe_state sha1 { f with content := modify_file .apply V0.changes u } =
          match classify (sha1 (modify_file .apply V0.changes u)) VERSIONS with
          | .ok st2 => IOResult.ok st2
          | .error e => IOResult.err e := get_exe_state_eq sha1 _ hs hr
      rw [h2, hi.hashP, classify_PH]
    · have h3 : run_patch sha1 { f with content := modify_file .apply V0.changes u } =
          ((match classify (sha1 (modify_file .undo V0.changes
              (modify_file .apply V0.changes u))) VERSIONS with
            | .ok _ => IOResult.ok ()
            | .error e => IOResult.err e),
           { f with content := (modify_file .undo V0.changes
              (modify_file .apply V0.changes u)) }, true) :=
        run_patch_write_ok sha1 _ { version := V0, patched := true } hs hr hw
          (by show classify (sha1 (modify_file .apply V0.changes u)) VERSIONS = _
              rw [hi.hashP]; exact classify_PH)
      rw [hrt, hi.hashU, classify_UH] at h3
      exact ⟨{ f with content := u }, h3, hcu.symm⟩
  · have hca : f.content = modify_file .apply V0.changes u := hi.preP _ hP
    have h1 : run_patch sha1 f =
        ((match classify (sha1 (modify_file .undo V0.changes f.content)) VERSIONS with
          | .ok _ => IOResult.ok ()
          | .error e => IOResult.err e),
         { f with content := modify_file .undo V0.changes f.content }, true) :=
      run_patch_write_ok sha1 f { version := V0, patched := true } hs hr hw
        (by rw [hP]; exact classify_PH)
    rw [hca, hrt] at h1
    rw [hi.hashU, classify_UH] at h1
    refine ⟨{ f with content := u }, h1,
      fun hU => absurd (hU.symm.trans hP) registry_hashes_ne, fun _ => ?_, ?_⟩
    · have h2 : get_exe_state sha1 { f with content := u } =
          match classify (sha1 u) VERSIONS with
          | .ok st2 => IOResult.ok st2
          | .error e => IOResult.err e := get_exe_state_eq sha1 _ hs hr
      rw [h2, hi.hashU, classify_UH]
    · have h3 : run_patch sha1 { f with content := u } =
        ((match classify (sha1 (modify_file .apply V0.changes u)) VERSIONS with
          | .ok _ => IOResult.ok ()
          | .error e => IOResult.err e),
         { f with content := modify_file .apply V0.changes u }, true) :=
        run_patch_write_ok sha1 _ { version := V0, patched := false } hs hr hw
          (by show classify (sha1 u) VERSIONS = _
              rw [hi.hashU]; exact classify_UH)
      rw [hi.hashP, classify_PH] at h3
      exact ⟨{ f with content := modify_file .apply V0.changes u }, h3, hca.symm⟩

/-- C2 witness: the toggle theorem applied at the concrete digest function
sha1w and the concrete pristine file opened with working I/O. -/
theorem C2_toggle_witness :
    fU0.seekFails = false ∧ fU0.readFails = false ∧ fU0.writeFails = false ∧
    (sha1w fU0.content = V0.unpatched_hash ∨ sha1w fU0.content = V0.patched_hash) ∧
    (∃ f', run_patch sha1w fU0 = (.ok (), f', true) ∧
      (sha1w fU0.content = V0.unpatched_hash →
        get_exe_state sha1w f' = .ok { version := V0, patched := true }) ∧
      (sha1w fU0.content = V0.patched_hash →
        get_exe_state sha1w f' = .ok { version := V0, patched := false }) ∧
      ∃ f'', run_patch sha1w f' = (.ok (), f'', true) ∧ f''.content = fU0.content) :=
  ⟨rfl, rfl, rfl, Or.inl idealHash_w.hashU,
   C2_toggle sha1w u0 idealHash_w fU0 rfl rfl rfl (Or.inl idealHash_w.hashU)⟩

/-- C4: evaluation of the resolver at the failing input (the spec requires
that a failed manifest lookup under one library root must not abort the
whole resolution): with two listed roots where the manifest is missing
under the first and present and well-formed under the second, the code
propagates the read error of the first root and never returns the derived
path of the second root, although the manifest of the second root parses
and would yield that path. -/
theorem C4_first_root_error_short_circuits :
    find_install_path env0 49520 = .error .ioError ∧
    get_install_dir_from_manifest env0 "/lib2/steamapps/appmanifest_49520.acf"
      = .ok "common/Borderlands2" ∧
    try_library_path env0 "appmanifest_49520.acf" "/lib2"
      = .ok "/lib2/steamapps/common/Borderlands2" := by
  refine ⟨?_, ?_, ?_⟩
  · decide
  · decide
  · decide

/-- An error of the manifest lookup is the propagated read error or the
BadVDF error carrying the manifest path, never anything else. -/
theorem get_install_dir_error_shape (env : Env) (p : String) (e : ProgError)
    (h : get_install_dir_from_manifest env p = .error e) :
    e = .ioError ∨ e = .patcher (.BadVDF p) := by
  rcases hr : env.readFile p with _ | m
  · simp only [get_install_dir_from_manifest, hr] at h
    injection h with h2
    exact Or.inl h2.symm
  · rcases he : extract_installdir m with _ | d
    · simp only [get_install_dir_from_manifest, hr, he] at h
      injection h with h2
      exact Or.inr h2.symm
    · simp only [get_install_dir_from_manifest, hr, he] at h
      exact Except.noConfusion h

/-- An error of the per-candidate closure is the error of the manifest
lookup under that candidate. -/
theorem try_library_path_error_shape (env : Env) (mf p : String) (e : ProgError)
    (h : try_library_path env mf p = .error e) :
    e = .ioError ∨ ∃ mp, e = .patcher (.BadVDF mp) := by
  rcases hg : get_install_dir_from_manifest env (p ++ "/steamapps" ++ "/" ++ mf) with e2 | d
  · simp only [try_library_path, hg] at h
    injection h with h2
    subst h2
    rcases get_install_dir_error_shape env _ _ hg with h3 | h3
    · exact Or.inl h3
    · exact Or.inr ⟨_, h3⟩
  · simp only [try_library_path, hg] at h
    exact Except.noConfusion h

/-- An error of the library-index load is the propagated loader error or
the BadVDF error carrying the index path, never anything else. -/
theorem load_libraries_error_shape (env : Env) (p : String) (e : ProgError)
    (h : load_libraries_vdf env p = .error e) :
    e = .vdfError ∨ e = .patcher (.BadVDF p) := by
  rcases hv : env.vdfLoad p with _ | entry
  · simp only [load_libraries_vdf, hv] at h
    injection h with h2
    exact Or.inl h2.symm
  · cases entry with
    | value s =>
      simp only [load_libraries_vdf, hv] at h
      injection h with h2
      exact Or.inr h2.symm
    | table root =>
      rcases hlk : vdfLookup root "LibraryFolders" with _ | entry2
      · simp only [load_libraries_vdf, hv, hlk] at h
        injection h with h2
        exact Or.inr h2.symm
      · cases entry2 with
        | value s =>
          simp only [load_libraries_vdf, hv, hlk] at h
          injection h with h2
          exact Or.inr h2.symm
        | table entries =>
          simp only [load_libraries_vdf, hv, hlk] at h
          exact Except.noConfusion h

/-- When the preliminary steps succeed, the resolver returns exactly the
closure result of the first candidate root (the candidate list always ends
with the home Steam directory, hence is never empty). -/
theorem find_install_path_first (env : Env) (appid : Nat)
    (home home_steam : String) (paths : List String)
    (hh : env.homeVar = some home)
    (hc : env.canonicalize (home ++ "/.steam/steam") = some home_steam)
    (hl : load_libraries_vdf env (home_steam ++ "/steamapps" ++ "/libraryfolders.vdf")
      = .ok paths) :
    ∃ first rest, paths ++ [home_steam] = first :: rest ∧
      find_install_path env appid =
        try_library_path env ("appmanifest_" ++ toString appid ++ ".acf") first := by
  obtain ⟨first, rest, hfr⟩ :
      ∃ first rest, paths ++ [home_steam] = first :: rest := by
    cases paths with
    | nil => exact ⟨home_steam, [], rfl⟩
    | cons a as => exact ⟨a, as ++ [home_steam], rfl⟩
  refine ⟨first, rest, hfr, ?_⟩
  simp only [find_install_path, hh, hc, hl, hfr, List.findSome?_cons]

/-- C10 counterexample: the universal claim that every run of the resolver
returns either a derived install path or the error of the first candidate
root whose manifest lookup failed is false: with the HOME variable unset
the resolver returns the environment-variable error before any candidate
root exists, and a manifest lookup never produces that error value. -/
theorem C10_counterexample :
    ¬ (∀ (env : Env) (appid : Nat),
        (∃ p, find_install_path env appid = .ok p) ∨
        (∃ e, find_install_path env appid = .error e ∧
          (e = .ioError ∨ ∃ mp, e = .patcher (.BadVDF mp)))) := by
  intro h
  have hval : find_install_path env1 49520 = .error .envError := rfl
  rcases h env1 49520 with ⟨p, hp⟩ | ⟨e, he, hkind⟩
  · rw [hval] at hp
    exact Except.noConfusion hp
  · rw [hval] at he
    injection he with he2
    subst he2
    rcases hkind with h3 | ⟨mp, h3⟩
    · exact ProgError.noConfusion h3
    · exact ProgError.noConfusion h3

/-- C10 amended: the resolver appends the home Steam directory as final
candidate root, so the candidate list is never empty; whenever the HOME
lookup, the canonicalization of the home Steam directory and the
library-index load succeed, the per-candidate closure yields a value at
every candidate and the resolver returns exactly the result of the first
candidate (its derived path, or the error of its failed manifest lookup);
and on no input is the CantFindManifest fallback reachable. -/
theorem C10_cant_find_unreachable (env : Env) (appid : Nat) :
    (∀ a, find_install_path env appid ≠ .error (.patcher (.CantFindManifest a))) ∧
    (∀ home home_steam paths,
      env.homeVar = some home →
      env.canonicalize (home ++ "/.steam/steam") = some home_steam →
      load_libraries_vdf env (home_steam ++ "/steamapps" ++ "/libraryfolders.vdf")
        = .ok paths →
      ∃ first rest, paths ++ [home_steam] = first :: rest ∧
        find_install_path env appid =
          try_library_path env ("appmanifest_" ++ toString appid ++ ".acf") first) := by
  constructor
  · intro a hcontra
    rcases hh : env.homeVar with _ | home
    · simp [find_install_path, hh] at hcontra
    · rcases hc : env.canonicalize (home ++ "/.steam/steam") with _ | home_steam
      · simp [find_install_path, hh, hc] at hcontra
      · rcases hl : load_libraries_vdf env
            (home_steam ++ "/steamapps" ++ "/libraryfolders.vdf") with e | paths
        · simp only [find_install_path, hh, hc, hl] at hcontra
          injection hcontra with h2
          rcases load_libraries_error_shape env _ _ hl with h3 | h3
          · rw [h2] at h3
            exact ProgError.noConfusion h3
          · rw [h2] at h3
            injection h3 with h4
            exact PatcherError.noConfusion h4
        · obtain ⟨first, rest, hfr, heq⟩ :=
            find_install_path_first env appid home home_steam paths hh hc hl
          rw [heq] at hcontra
          rcases try_library_path_error_shape env _ _ _ hcontra with h3 | ⟨mp, h3⟩
          · exact ProgError.noConfusion h3
          · injection h3 with h4
            exact PatcherError.noConfusion h4
  · intro home home_steam paths hh hc hl
    exact find_install_path_first env appid home home_steam paths hh hc hl

/-- C10 witness: the amended theorem applied at the concrete two-root
environment. -/
theorem C10_cant_find_unreachable_witness :
    env0.homeVar = some "/home/u" ∧
    env0.canonicalize ("/home/u" ++ "/.steam/steam") = some "/home/u/.steam/steam" ∧
    load_libraries_vdf env0
      ("/home/u/.steam/steam" ++ "/steamapps" ++ "/libraryfolders.vdf")
      = .ok ["/lib1", "/lib2"] ∧
    (∀ a, find_install_path env0 49520 ≠ .error (.patcher (.CantFindManifest a))) ∧
    (∃ first rest, ["/lib1", "/lib2"] ++ ["/home/u/.steam/steam"] = first :: rest ∧
      find_install_path env0 49520 =
        try_library_path env0 ("appmanifest_" ++ toString 49520 ++ ".acf") first) :=
  ⟨rfl, rfl, by decide,
   (C10_cant_find_unreachable env0 49520).1,
   (C10_cant_find_unreachable env0 49520).2 "/home/u" "/home/u/.steam/steam"
     ["/lib1", "/lib2"] rfl rfl (by decide)⟩

end BLPatcher
